import Mathlib

/-!
# Verification of the rateio allocation engine (`src/services/calculation.ts`)

Shallow embedding of the bill-splitting engine. Modelling conventions:

* Cent amounts are `Nat`: the engine receives DB integer columns and the
  caller validates non-negativity before the engine runs.
* The source's `Fraction` record of bigints is the structure `Frac` below,
  with `gcdBigInt`/`normalizeFraction`/`addFractions` translated directly
  (the Euclid loop of `gcdBigInt` computes `Nat.gcd` of the absolute values).
* JavaScript `number` arithmetic in the proportional branch is modelled
  exactly: `Math.floor((extraAmount * consumption) / total)` on non-negative
  integers is `Nat` division, and the leftover `fraction` is the exact
  rational `rawShare - baseShare`, kept as a `Frac`; the `1e-9` epsilon
  comparison is done by cross-multiplication.
* `Array.prototype.sort` (stable per ECMAScript) with a JS comparator `cmp`
  is modelled by the stable `List.insertionSort` under the relation
  `cmp a b ≠ .gt`; `localeCompare` on ids is char-wise lexicographic
  comparison (`strCmpJS`).
* A `Record<string, T>` is modelled by its insertion-ordered key list
  (first occurrence wins, as in JS objects) together with a total function.
* `throw new Error(msg)` is `Except.error msg`.
-/

structure Participant where
  id : String
  name : String
  splitId : String
  sortOrder : Int
  deriving Repr, DecidableEq

structure Item where
  id : String
  name : String
  splitId : String
  amountCents : Nat
  deriving Repr, DecidableEq

structure ItemShareInput where
  itemId : String
  participantId : String
  deriving Repr, DecidableEq

inductive ExtraType where
  | FIXED
  | SERVICE_PERCENT
  deriving Repr, DecidableEq

inductive AllocationMode where
  | EQUAL
  | PROPORTIONAL
  deriving Repr, DecidableEq

structure Extra where
  id : String
  splitId : String
  type : ExtraType
  valueCents : Option Nat
  valuePercentBp : Option Nat
  allocationMode : AllocationMode
  deriving Repr, DecidableEq

structure CalculationResult where
  participantTotals : List (String × Nat)
  participantTotalsRaw : Option (List (String × String))
  grandTotalCents : Nat
  itemsTotalCents : Nat
  extrasTotalCents : Nat
  baseFeeCents : Nat
  aiCents : Nat
  finalTotalToPayCents : Nat
  deriving Repr, DecidableEq

/-! ## Exact fractions (the source's bigint `Fraction`) -/

structure Frac where
  num : Int
  den : Int
  deriving Repr, DecidableEq

/-- The Euclid loop of `gcdBigInt` on the absolute values. -/
def gcdBigInt (a b : Int) : Int :=
  (Nat.gcd a.natAbs b.natAbs : Int)

/-- `normalizeFraction`: lowest terms, positive denominator. The source throws
`Invalid fraction: denominator 0` on a zero denominator; that branch is never
reached by the engine, which always builds positive denominators. -/
def normalizeFraction (f : Frac) : Frac :=
  if f.den = 0 then { num := 0, den := 0 }
  else if f.num = 0 then { num := 0, den := 1 }
  else
    let sign : Int := if f.den < 0 then -1 else 1
    let num := f.num * sign
    let den := f.den * sign
    let g := gcdBigInt num den
    { num := num / g, den := den / g }

/-- `addFractions`: `a/b + c/d = (ad + bc) / bd`, normalized. -/
def addFractions (a b : Frac) : Frac :=
  normalizeFraction { num := a.num * b.den + b.num * a.den, den := a.den * b.den }

/-! ## JS comparators and stable sorting -/

/-- JS numeric comparator result (the sign of `a - b`). -/
def ordCompare {α : Type} [LinearOrder α] (a b : α) : Ordering :=
  if a < b then .lt else if a = b then .eq else .gt

/-- Char-wise lexicographic `<` on strings (the model of `localeCompare`). -/
def charListLt : List Char → List Char → Bool
  | _, [] => false
  | [], _ :: _ => true
  | a :: as, b :: bs =>
    if a < b then true
    else if b < a then false
    else charListLt as bs

/-- `a.localeCompare(b)` modelled as lexicographic comparison by char code. -/
def strCmpJS (a b : String) : Ordering :=
  if charListLt a.data b.data then .lt
  else if charListLt b.data a.data then .gt
  else .eq

/-- The order a JS stable sort realizes for comparator `cmp`:
`a` may stay before `b` iff `cmp a b ≠ .gt`. -/
def jsSortLe {α : Type} (cmp : α → α → Ordering) (a b : α) : Prop :=
  cmp a b ≠ .gt

instance jsSortLeDecidable {α : Type} (cmp : α → α → Ordering) :
    DecidableRel (jsSortLe cmp) := fun a b =>
  inferInstanceAs (Decidable (cmp a b ≠ .gt))

/-- Stable sort with a JS comparator (ECMAScript `Array.prototype.sort`). -/
def sortJS {α : Type} (cmp : α → α → Ordering) (l : List α) : List α :=
  List.insertionSort (jsSortLe cmp) l

/-- `participantMap.get(pid)`: the map is built by `forEach`, so for duplicate
ids the last participant wins. The default is never reached on looked-up ids. -/
def pget (ps : List Participant) (pid : String) : Participant :=
  (ps.reverse.find? (fun p => p.id == pid)).getD
    { id := pid, name := "", splitId := "", sortOrder := 0 }

/-- `sortParticipants` comparator: `sortOrder` ascending, then id ascending. -/
def participantCmp (ps : List Participant) (a b : String) : Ordering :=
  let pA := pget ps a
  let pB := pget ps b
  if pA.sortOrder ≠ pB.sortOrder then ordCompare pA.sortOrder pB.sortOrder
  else strCmpJS pA.id pB.id

/-- Comparator selecting remainder recipients: lowest running item-only total
first, ties by `(sortOrder, id)` ascending. -/
def remainderCmp (ps : List Participant) (snapshot : String → Nat) (a b : String) : Ordering :=
  let ta := snapshot a
  let tb := snapshot b
  if ta ≠ tb then ordCompare ta tb
  else
    let pA := pget ps a
    let pB := pget ps b
    if pA.sortOrder ≠ pB.sortOrder then ordCompare pA.sortOrder pB.sortOrder
    else strCmpJS pA.id pB.id

/-- `distributeCents`: base share for everyone, remainder cent to the first
`amount % count` positions. -/
def distributeCents (amount count : Nat) : List Nat :=
  if count = 0 then []
  else (List.range count).map
    (fun i => if i < amount % count then amount / count + 1 else amount / count)

/-! ## The exact-value formatter -/

/-- Thousands grouping of a digit string, as the regex
`replace(/\B(?=(\d{3})+(?!\d))/g, ".")`: separators every three digits from
the right, never at the start. Works on the reversed character list. -/
def groupChars : List Char → List Char
  | [] => []
  | [a] => [a]
  | [a, b] => [a, b]
  | [a, b, c] => [a, b, c]
  | a :: b :: c :: d :: rest => a :: b :: c :: '.' :: groupChars (d :: rest)

def thousandsSep (s : String) : String :=
  String.mk ((groupChars s.data.reverse).reverse)

/-- The long-division loop of `formatBRLFromFraction`: produces the digit
string and the final remainder after `extraDecimals` steps. -/
def fracDigitsLoop (d : Nat) (remainder : Nat) : Nat → (String × Nat)
  | 0 => ("", remainder)
  | k + 1 =>
    let r10 := remainder * 10
    let digit := r10 / d
    let r2 := r10 % d
    let rest := fracDigitsLoop d r2 k
    (toString digit ++ rest.1, rest.2)

/-- `formatBRLFromFraction`: renders `num/den` (in reais) with thousands
separators, a comma, `extraDecimals` truncated digits, and `…` when a
non-zero remainder persists. -/
def formatBRLFromFraction (num den : Int) (extraDecimals : Nat) : String :=
  let n := num.natAbs
  let d := den.natAbs
  let integerPart := n / d
  let remainder := n % d
  let intStr := thousandsSep (toString integerPart)
  let res := fracDigitsLoop d remainder extraDecimals
  let hasMore := res.2 ≠ 0
  "R$ " ++ intStr ++ "," ++ res.1 ++ (if hasMore then "…" else "")

/-! ## The engine -/

/-- Running state of `calculateSplit` (the mutable locals of the source). -/
structure SplitState where
  participantTotals : String → Nat
  itemsOnlyTotals : String → Nat
  participantTotalsRawCents : String → Frac
  itemsOnlyTotalsRawCents : String → Frac
  itemsTotalCents : Nat
  extrasTotalCents : Nat

def initState : SplitState :=
  { participantTotals := fun _ => 0
    itemsOnlyTotals := fun _ => 0
    participantTotalsRawCents := fun _ => { num := 0, den := 1 }
    itemsOnlyTotalsRawCents := fun _ => { num := 0, den := 1 }
    itemsTotalCents := 0
    extrasTotalCents := 0 }

/-- `f[k] += v` on a `Record<string, number>`. -/
def bump (f : String → Nat) (k : String) (v : Nat) : String → Nat :=
  fun s => if s = k then f k + v else f s

/-- `f[k] = addFractions(f[k], v)` on a `Record<string, Fraction>`. -/
def bumpQ (f : String → Frac) (k : String) (v : Frac) : String → Frac :=
  fun s => if s = k then addFractions (f k) v else f s

def orphanMsg (item : Item) : String :=
  "Item \"" ++ item.name ++ "\" has no valid consumers"

def invariantMsg (sumParticipants checkTotal : Nat) : String :=
  "Invariant failed: Sum of participants (" ++ toString sumParticipants ++
    ") !== Total (" ++ toString checkTotal ++ ")"

/-- Consumers of an item: share edges for the item, with shares pointing at
unknown participants (deleted) silently dropped. -/
def validConsumersOf (ps : List Participant) (shares : List ItemShareInput)
    (item : Item) : List String :=
  ((shares.filter (fun s => s.itemId == item.id)).map (fun s => s.participantId)).filter
    (fun cid => ps.any (fun p => p.id == cid))

/-- The remainder recipients for one item: the `remainder` consumers with the
lowest running item-only totals, ties broken by `(sortOrder, id)`. -/
def remainderRecipientsOf (ps : List Participant) (snapshot : String → Nat)
    (consumers : List String) (remainder : Nat) : List String :=
  (sortJS (remainderCmp ps snapshot) consumers).take remainder

/-- The per-consumer integer allocation list of one item (what the item loop
adds to `participantTotals` and `itemsOnlyTotals`). -/
def itemAllocations (ps : List Participant) (snapshot : String → Nat)
    (item : Item) (valid : List String) : List (String × Nat) :=
  let sorted := sortJS (participantCmp ps) valid
  let count := valid.length
  let base := item.amountCents / count
  let remainder := item.amountCents % count
  let remainderRecipients :=
    if 0 < remainder then remainderRecipientsOf ps snapshot sorted remainder else []
  sorted.map (fun pid =>
    (pid, base + (if remainderRecipients.contains pid then 1 else 0)))

/-- One iteration of the item loop. -/
def processItem (ps : List Participant) (shares : List ItemShareInput)
    (st : SplitState) (item : Item) : Except String SplitState :=
  let st := { st with itemsTotalCents := st.itemsTotalCents + item.amountCents }
  let valid := validConsumersOf ps shares item
  if valid.isEmpty then .error (orphanMsg item)
  else
    let allocs := itemAllocations ps st.itemsOnlyTotals item valid
    let rawShare : Frac :=
      normalizeFraction { num := (item.amountCents : Int), den := (valid.length : Int) }
    .ok (allocs.foldl (fun s pr =>
      { s with
        participantTotals := bump s.participantTotals pr.1 pr.2
        itemsOnlyTotals := bump s.itemsOnlyTotals pr.1 pr.2
        participantTotalsRawCents := bumpQ s.participantTotalsRawCents pr.1 rawShare
        itemsOnlyTotalsRawCents := bumpQ s.itemsOnlyTotalsRawCents pr.1 rawShare }) st)

/-- Computed integer amount of an extra: FIXED → `valueCents || 0`;
SERVICE_PERCENT → `floor(itemsTotalCents * valuePercentBp / 10000)`. -/
def extraAmountOf (itemsTotalCents : Nat) (e : Extra) : Nat :=
  match e.type with
  | .FIXED => e.valueCents.getD 0
  | .SERVICE_PERCENT => itemsTotalCents * e.valuePercentBp.getD 0 / 10000

structure PropCandidate where
  pid : String
  baseShare : Nat
  fraction : Frac
  participant : Participant
  deriving Repr, DecidableEq

/-- Largest-remainder candidates of a PROPORTIONAL extra.
`rawShare = extraAmount * consumption / total` is a non-negative rational, so
`Math.floor(rawShare)` is `Nat` division and `fraction` is the exact leftover
`rawShare - baseShare`. -/
def propCandidates (ps : List Participant) (itemsOnly : String → Nat)
    (totalItemsConsumedCents extraAmount : Nat) : List PropCandidate :=
  ps.map (fun p =>
    let consumption := itemsOnly p.id
    let baseShare : Nat := extraAmount * consumption / totalItemsConsumedCents
    { pid := p.id
      baseShare := baseShare
      fraction := { num := (extraAmount * consumption : Nat) -
                      (baseShare : Int) * (totalItemsConsumedCents : Nat)
                    den := (totalItemsConsumedCents : Nat) }
      participant := p })

/-- `b.fraction - a.fraction` as an exact fraction (cross multiplication). -/
def fracSub (x y : Frac) : Frac :=
  { num := x.num * y.den - y.num * x.den, den := x.den * y.den }

/-- Comparator of the largest-remainder pass: fraction descending with a
`1e-9` epsilon (`|diff| > 1e-9` by cross multiplication), ties by
`(sortOrder, id)` ascending. -/
def propCmp (a b : PropCandidate) : Ordering :=
  let diff := fracSub b.fraction a.fraction
  if diff.den.natAbs < 1000000000 * diff.num.natAbs then
    (if 0 < diff.num * diff.den then .gt else .lt)
  else if a.participant.sortOrder ≠ b.participant.sortOrder then
    ordCompare a.participant.sortOrder b.participant.sortOrder
  else strCmpJS a.participant.id b.participant.id

/-- The per-participant integer allocation list of one extra (what the extras
loop adds to `participantTotals`), or the TypeError the source would raise by
indexing past the candidate array. -/
def extraAllocations (ps : List Participant) (itemsOnly : String → Nat)
    (itemsTotalCents : Nat) (e : Extra) : Except String (List (String × Nat)) :=
  let extraAmount := extraAmountOf itemsTotalCents e
  if 0 < extraAmount then
    match e.allocationMode with
    | .EQUAL =>
      let count := ps.length
      if 0 < count then
        let pIds := sortJS (participantCmp ps) (ps.map (fun p => p.id))
        .ok (pIds.zip (distributeCents extraAmount count))
      else .ok []
    | .PROPORTIONAL =>
      if 0 < itemsTotalCents then
        let cands := propCandidates ps itemsOnly itemsTotalCents extraAmount
        let assignedTotal : Nat := (cands.map (fun c => c.baseShare)).sum
        let baseAllocs := cands.map (fun c => (c.pid, c.baseShare))
        let remainderToDistribute : Int := (extraAmount : Int) - (assignedTotal : Int)
        if 0 < remainderToDistribute then
          if (cands.length : Int) < remainderToDistribute then
            .error "TypeError: Cannot read properties of undefined"
          else
            let sortedCands := sortJS propCmp cands
            .ok (baseAllocs ++ (sortedCands.take remainderToDistribute.toNat).map
              (fun c => (c.pid, 1)))
        else .ok baseAllocs
      else .ok []
  else .ok []

/-- One iteration of the extras loop. Integer totals get the allocation list;
the exact accumulator is updated here only for EQUAL extras (the PROPORTIONAL
exact pass runs separately afterwards). -/
def processExtra (ps : List Participant) (st : SplitState) (e : Extra) :
    Except String SplitState :=
  let extraAmount := extraAmountOf st.itemsTotalCents e
  match extraAllocations ps st.itemsOnlyTotals st.itemsTotalCents e with
  | .error m => .error m
  | .ok allocs =>
    let st1 := { st with extrasTotalCents := st.extrasTotalCents + extraAmount }
    let st2 := allocs.foldl (fun s pr =>
      { s with participantTotals := bump s.participantTotals pr.1 pr.2 }) st1
    match e.allocationMode with
    | .EQUAL =>
      let rawPart : Frac :=
        normalizeFraction { num := (extraAmount : Int), den := (ps.length : Int) }
      .ok (allocs.foldl (fun s pr =>
        { s with participantTotalsRawCents :=
            bumpQ s.participantTotalsRawCents pr.1 rawPart }) st2)
    | .PROPORTIONAL => .ok st2

/-- Second exact pass: add each PROPORTIONAL extra's exact rational share
(based on the exact item-only consumption) to the raw accumulator. -/
def rawPropPass (ps : List Participant) (extrasList : List Extra)
    (st : SplitState) : SplitState :=
  if 0 < extrasList.length ∧ 0 < st.itemsTotalCents then
    extrasList.foldl (fun s e =>
      let extraAmount := extraAmountOf st.itemsTotalCents e
      if extraAmount = 0 then s
      else
        match e.allocationMode with
        | .PROPORTIONAL =>
          ps.foldl (fun s2 p =>
            let consumption := s2.itemsOnlyTotalsRawCents p.id
            let share : Frac := normalizeFraction
              ({ num := (extraAmount : Int) * consumption.num,
                 den := consumption.den * (st.itemsTotalCents : Int) } : Frac)
            { s2 with
              participantTotalsRawCents := bumpQ s2.participantTotalsRawCents p.id share }) s
        | .EQUAL => s) st
  else st

/-- `calculateSplit`, parameterized by the raw-value formatter (the source
calls `formatBRLFromFraction` exactly once, to render the auxiliary strings
from `f.num` over `f.den * 100` with 6 extra decimals). -/
def calculateSplitF (fmt : Int → Int → Nat → String)
    (participantsList : List Participant) (itemsList : List Item)
    (shares : List ItemShareInput) (extrasList : List Extra)
    (baseFeeCents : Nat := 0) (aiCents : Nat := 0) :
    Except String CalculationResult :=
  match itemsList.foldlM (processItem participantsList shares) initState with
  | .error m => .error m
  | .ok stI =>
    match extrasList.foldlM (processExtra participantsList) stI with
    | .error m => .error m
    | .ok stE =>
      let stR := rawPropPass participantsList extrasList stE
      let keyIds := (participantsList.map (fun p => p.id)).eraseDups
      let sumParticipants := (keyIds.map stR.participantTotals).sum
      let checkTotal := stR.itemsTotalCents + stR.extrasTotalCents
      if sumParticipants ≠ checkTotal then
        .error (invariantMsg sumParticipants checkTotal)
      else
        let platformFeesCents := baseFeeCents + aiCents
        let raws := keyIds.map (fun pid =>
          (pid, fmt (stR.participantTotalsRawCents pid).num
            ((stR.participantTotalsRawCents pid).den * 100) 6))
        .ok
          { participantTotals := keyIds.map (fun pid => (pid, stR.participantTotals pid))
            participantTotalsRaw := some raws
            grandTotalCents := checkTotal
            itemsTotalCents := stR.itemsTotalCents
            extrasTotalCents := stR.extrasTotalCents
            baseFeeCents := baseFeeCents
            aiCents := aiCents
            finalTotalToPayCents := platformFeesCents }

def calculateSplit (participantsList : List Participant) (itemsList : List Item)
    (shares : List ItemShareInput) (extrasList : List Extra)
    (baseFeeCents : Nat := 0) (aiCents : Nat := 0) :
    Except String CalculationResult :=
  calculateSplitF formatBRLFromFraction participantsList itemsList shares extrasList
    baseFeeCents aiCents

/-! ## Generic lemmas about the comparator and sort models -/

theorem ordCompare_eq_gt_iff {α : Type} [LinearOrder α] {a b : α} :
    ordCompare a b = .gt ↔ b < a := by
  rcases lt_trichotomy a b with h | h | h
  · simp [ordCompare, h, h.asymm]
  · subst h; simp [ordCompare, lt_irrefl]
  · simp [ordCompare, h, h.asymm, h.ne']

theorem ordCompare_ne_gt_iff {α : Type} [LinearOrder α] {a b : α} :
    ordCompare a b ≠ .gt ↔ a ≤ b := by
  rw [Ne, ordCompare_eq_gt_iff, not_lt]

theorem ordCompare_eq_lt_iff {α : Type} [LinearOrder α] {a b : α} :
    ordCompare a b = .lt ↔ a < b := by
  rcases lt_trichotomy a b with h | h | h
  · simp [ordCompare, h]
  · subst h; simp [ordCompare, lt_irrefl]
  · simp [ordCompare, h, h.asymm, h.ne']

theorem ordCompare_eq_eq_iff {α : Type} [LinearOrder α] {a b : α} :
    ordCompare a b = .eq ↔ a = b := by
  rcases lt_trichotomy a b with h | h | h
  · simp [ordCompare, h, h.ne]
  · subst h; simp [ordCompare, lt_irrefl]
  · simp [ordCompare, h, h.asymm, h.ne']

theorem sortJS_perm {α : Type} (cmp : α → α → Ordering) (l : List α) :
    (sortJS cmp l).Perm l :=
  List.perm_insertionSort _ l

theorem sortJS_length {α : Type} (cmp : α → α → Ordering) (l : List α) :
    (sortJS cmp l).length = l.length :=
  List.length_insertionSort _ l

theorem sortJS_sorted {α : Type} (cmp : α → α → Ordering)
    (htot : ∀ a b, jsSortLe cmp a b ∨ jsSortLe cmp b a)
    (htrans : ∀ a b c, jsSortLe cmp a b → jsSortLe cmp b c → jsSortLe cmp a c)
    (l : List α) : List.Sorted (jsSortLe cmp) (sortJS cmp l) := by
  letI : IsTotal α (jsSortLe cmp) := ⟨htot⟩
  letI : IsTrans α (jsSortLe cmp) := ⟨fun a b c => htrans a b c⟩
  exact List.sorted_insertionSort _ l

theorem pget_id (ps : List Participant) (pid : String) : (pget ps pid).id = pid := by
  unfold pget
  cases h : ps.reverse.find? (fun p => p.id == pid) with
  | none => rfl
  | some p =>
    have := List.find?_some h
    simpa using eq_of_beq this

theorem eraseDups_loop_eq {α : Type} [BEq α] [LawfulBEq α] :
    ∀ (l r : List α), (∀ a ∈ l, a ∉ r) → l.Nodup →
      List.eraseDups.loop l r = r.reverse ++ l
  | [], r, _, _ => by simp [List.eraseDups.loop]
  | a :: l, r, hmem, hnd => by
    rw [List.eraseDups.loop]
    have ha : a ∉ r := hmem a (by simp)
    have : List.elem a r = false := by
      simpa using ha
    rw [this]
    have hrec := eraseDups_loop_eq l (a :: r)
      (by
        intro x hx
        simp only [List.mem_cons, not_or]
        exact ⟨fun hxa => (List.nodup_cons.mp hnd).1 (hxa ▸ hx),
          fun hxr => hmem x (List.mem_cons_of_mem _ hx) hxr⟩)
      (List.nodup_cons.mp hnd).2
    rw [hrec]
    simp

theorem eraseDups_eq_self_of_nodup {α : Type} [BEq α] [LawfulBEq α]
    {l : List α} (h : l.Nodup) : l.eraseDups = l := by
  have := eraseDups_loop_eq l [] (by simp) h
  simpa [List.eraseDups] using this

/-! ## Destructuring successful runs -/

theorem calculateSplitF_ok {fmt : Int → Int → Nat → String}
    {ps : List Participant} {its : List Item} {shs : List ItemShareInput}
    {exs : List Extra} {b a : Nat} {r : CalculationResult}
    (h : calculateSplitF fmt ps its shs exs b a = Except.ok r) :
    ∃ stI stE,
      List.foldlM (processItem ps shs) initState its = Except.ok stI ∧
      List.foldlM (processExtra ps) stI exs = Except.ok stE ∧
      (((ps.map (fun p => p.id)).eraseDups.map
          (rawPropPass ps exs stE).participantTotals).sum
        = (rawPropPass ps exs stE).itemsTotalCents
          + (rawPropPass ps exs stE).extrasTotalCents) ∧
      r = { participantTotals := (ps.map (fun p => p.id)).eraseDups.map
              (fun pid => (pid, (rawPropPass ps exs stE).participantTotals pid))
            participantTotalsRaw := some ((ps.map (fun p => p.id)).eraseDups.map
              (fun pid => (pid,
                fmt ((rawPropPass ps exs stE).participantTotalsRawCents pid).num
                  (((rawPropPass ps exs stE).participantTotalsRawCents pid).den * 100) 6)))
            grandTotalCents := (rawPropPass ps exs stE).itemsTotalCents
              + (rawPropPass ps exs stE).extrasTotalCents
            itemsTotalCents := (rawPropPass ps exs stE).itemsTotalCents
            extrasTotalCents := (rawPropPass ps exs stE).extrasTotalCents
            baseFeeCents := b
            aiCents := a
            finalTotalToPayCents := b + a } := by
  unfold calculateSplitF at h
  rcases hI : List.foldlM (processItem ps shs) initState its with m | stI
  · rw [hI] at h; exact absurd h (by simp)
  rw [hI] at h
  dsimp only at h
  rcases hE : List.foldlM (processExtra ps) stI exs with m | stE
  · rw [hE] at h; exact absurd h (by simp)
  rw [hE] at h
  dsimp only at h
  refine ⟨stI, stE, rfl, hE, ?_⟩
  by_cases hc :
      (((ps.map (fun p => p.id)).eraseDups.map
          (rawPropPass ps exs stE).participantTotals).sum
        = (rawPropPass ps exs stE).itemsTotalCents
          + (rawPropPass ps exs stE).extrasTotalCents)
  · refine ⟨hc, ?_⟩
    simp only [if_neg (not_not_intro hc)] at h
    exact (Except.ok.inj h).symm
  · rw [if_pos hc] at h
    exact absurd h (by simp)

/-! ## C1: global reconciliation -/

/-- C1 (counterexample): the invariant-violation branch of `calculateSplit` is
reachable on a valid input: one participant, no items, and one FIXED
PROPORTIONAL extra of 150 cents is counted into `extrasTotalCents` but never
distributed, so the run ends in the internal invariant error rather than
returning. This refutes the claim's "the invariant-violation branch is
unreachable" part. -/
theorem c1_invariant_branch_reachable :
    calculateSplit
      [{ id := "pA", name := "Ana", splitId := "s1", sortOrder := 0 }]
      [] []
      [{ id := "x1", splitId := "s1", type := .FIXED, valueCents := some 150,
         valuePercentBp := none, allocationMode := .PROPORTIONAL }] 0 0
      = Except.error "Invariant failed: Sum of participants (0) !== Total (150)" := by
  rfl

/-- C1 (amended): for every input on which `calculateSplit` returns normally,
the sum of all values of the returned `participantTotals` mapping equals
`itemsTotalCents + extrasTotalCents`. (The further claim that the
invariant-violation branch is unreachable on all valid inputs is false, see
the counterexample.) -/
theorem c1_sum_totals_on_success (ps : List Participant) (its : List Item)
    (shs : List ItemShareInput) (exs : List Extra) (b a : Nat)
    (r : CalculationResult)
    (h : calculateSplit ps its shs exs b a = Except.ok r) :
    (r.participantTotals.map (fun pr => pr.2)).sum
      = r.itemsTotalCents + r.extrasTotalCents := by
  obtain ⟨stI, stE, hI, hE, hsum, hr⟩ := calculateSplitF_ok h
  subst hr
  simpa [List.map_map, Function.comp] using hsum

/-- C1 witness: the reconciliation theorem applied to a concrete successful
run (two participants sharing a 301-cent item). -/
theorem c1_sum_totals_on_success_witness :
    (([("w1", 151), ("w2", 150)] : List (String × Nat)).map (fun pr => pr.2)).sum
      = 301 + 0 :=
  c1_sum_totals_on_success
    [{ id := "w1", name := "W1", splitId := "s", sortOrder := 0 },
     { id := "w2", name := "W2", splitId := "s", sortOrder := 1 }]
    [{ id := "i1", name := "Pizza", splitId := "s", amountCents := 301 }]
    [{ itemId := "i1", participantId := "w1" }, { itemId := "i1", participantId := "w2" }]
    [] 0 0
    { participantTotals := [("w1", 151), ("w2", 150)],
      participantTotalsRaw := some [("w1", "R$ 1,505000"), ("w2", "R$ 1,505000")],
      grandTotalCents := 301, itemsTotalCents := 301, extrasTotalCents := 0,
      baseFeeCents := 0, aiCents := 0, finalTotalToPayCents := 0 }
    (by rfl)

/-! ## C2: the `finalTotalToPayCents` field -/

/-- C2 (counterexample): on a successful run with a 200-cent bill and platform
fees 30 + 12, the returned `finalTotalToPayCents` is 42 (the fees alone), not
`itemsTotalCents + extrasTotalCents + baseFeeCents + aiCents = 242` as the
claim states. -/
theorem c2_final_total_counterexample :
    (calculateSplit
      [{ id := "c2p", name := "Cal", splitId := "s", sortOrder := 0 }]
      [{ id := "i2", name := "Burger", splitId := "s", amountCents := 200 }]
      [{ itemId := "i2", participantId := "c2p" }]
      [] 30 12).map
        (fun r => (r.finalTotalToPayCents,
          r.itemsTotalCents + r.extrasTotalCents + r.baseFeeCents + r.aiCents))
      = Except.ok (42, 242) ∧ (42 : Nat) ≠ 242 :=
  ⟨by rfl, by decide⟩

/-- C2 (amended): for every input on which `calculateSplit` returns normally,
the returned `finalTotalToPayCents` equals the platform fees alone,
`baseFeeCents + aiCents`; the grand total is not included. -/
theorem c2_final_total_is_fees_only (ps : List Participant) (its : List Item)
    (shs : List ItemShareInput) (exs : List Extra) (b a : Nat)
    (r : CalculationResult)
    (h : calculateSplit ps its shs exs b a = Except.ok r) :
    r.finalTotalToPayCents = r.baseFeeCents + r.aiCents := by
  obtain ⟨stI, stE, hI, hE, hsum, hr⟩ := calculateSplitF_ok h
  subst hr
  rfl

/-- C2 witness: the fees-only theorem applied to a concrete successful run
with fees 7 + 5. -/
theorem c2_final_total_is_fees_only_witness : (12 : Nat) = 7 + 5 :=
  c2_final_total_is_fees_only
    [{ id := "v1", name := "V1", splitId := "s", sortOrder := 0 }]
    [{ id := "i3", name := "Tea", splitId := "s", amountCents := 400 }]
    [{ itemId := "i3", participantId := "v1" }]
    [] 7 5
    { participantTotals := [("v1", 400)],
      participantTotalsRaw := some [("v1", "R$ 4,000000")],
      grandTotalCents := 400, itemsTotalCents := 400, extrasTotalCents := 0,
      baseFeeCents := 7, aiCents := 5, finalTotalToPayCents := 12 }
    (by rfl)

/-! ## C9: undistributable positive extra throws -/

/-- C9: with one participant, zero items and one FIXED PROPORTIONAL extra of
100 cents, `calculateSplit` does not return with the extra skipped: the
amount is added to `extrasTotalCents` while nobody receives anything, and the
run throws the internal invariant-violation error (participants sum 0 against
total 100). -/
theorem c9_undistributable_extra_throws :
    calculateSplit
      [{ id := "pZ", name := "Zoe", splitId := "s1", sortOrder := 0 }]
      [] []
      [{ id := "e1", splitId := "s1", type := .FIXED, valueCents := some 100,
         valuePercentBp := none, allocationMode := .PROPORTIONAL }] 0 0
      = Except.error "Invariant failed: Sum of participants (0) !== Total (100)" := by
  rfl

/-! ## C10: `participantTotalsRaw` is always populated -/

/-- C10: although `participantTotalsRaw` is declared optional, every
successful call returns it populated with exactly one exact-value string per
supplied participant (participants with distinct ids), in particular also for
participants who consumed nothing. -/
theorem c10_raw_totals_populated (ps : List Participant) (its : List Item)
    (shs : List ItemShareInput) (exs : List Extra) (b a : Nat)
    (r : CalculationResult)
    (hnd : (ps.map (fun p => p.id)).Nodup)
    (h : calculateSplit ps its shs exs b a = Except.ok r) :
    ∃ raws, r.participantTotalsRaw = some raws ∧
      raws.map (fun pr => pr.1) = ps.map (fun p => p.id) ∧
      raws.length = ps.length := by
  obtain ⟨stI, stE, hI, hE, hsum, hr⟩ := calculateSplitF_ok h
  subst hr
  refine ⟨_, rfl, ?_, ?_⟩
  · rw [eraseDups_eq_self_of_nodup hnd]
    simp [List.map_map, Function.comp]
  · rw [eraseDups_eq_self_of_nodup hnd]
    simp

/-- C10 witness: the population theorem applied to a run with two
participants and no items at all (both consumed nothing, both get a raw
string). -/
theorem c10_raw_totals_populated_witness :
    ∃ raws, (some [("x", "R$ 0,000000"), ("y", "R$ 0,000000")]
        : Option (List (String × String))) = some raws ∧
      raws.map (fun pr => pr.1) = ["x", "y"] ∧
      raws.length = 2 :=
  c10_raw_totals_populated
    [{ id := "x", name := "X", splitId := "s", sortOrder := 0 },
     { id := "y", name := "Y", splitId := "s", sortOrder := 1 }]
    [] [] [] 0 0
    { participantTotals := [("x", 0), ("y", 0)],
      participantTotalsRaw := some [("x", "R$ 0,000000"), ("y", "R$ 0,000000")],
      grandTotalCents := 0, itemsTotalCents := 0, extrasTotalCents := 0,
      baseFeeCents := 0, aiCents := 0, finalTotalToPayCents := 0 }
    (by decide)
    (by rfl)

/-! ## C3: per-item exactness -/

theorem sum_map_add_ite {α : Type} (l : List α) (base : Nat) (q : α → Bool) :
    ((l.map (fun x => (x, base + (if q x then 1 else 0)))).map (fun pr => pr.2)).sum
      = l.length * base + l.countP q := by
  induction l with
  | nil => simp
  | cons x xs ih =>
    simp only [List.map_cons, List.sum_cons, List.length_cons, List.countP_cons, ih]
    cases hq : q x <;> simp <;> ring

theorem take_countP_self {α : Type} [DecidableEq α] {l : List α} (hnd : l.Nodup)
    (r : Nat) (hr : r ≤ l.length) :
    l.countP (fun x => (l.take r).contains x) = r := by
  have h1 : (l.take r).countP (fun x => (l.take r).contains x) = (l.take r).length := by
    rw [List.countP_eq_length]
    intro x hx
    simpa using hx
  have h2 : (l.drop r).countP (fun x => (l.take r).contains x) = 0 := by
    rw [List.countP_eq_zero]
    intro x hx
    have := List.disjoint_take_drop (m := r) (n := r) hnd le_rfl
    simpa using fun hmem => this hmem hx
  have key : (l.take r ++ l.drop r).countP (fun x => (l.take r).contains x) = r := by
    rw [List.countP_append, h1, h2, List.length_take]
    omega
  rwa [List.take_append_drop] at key

/-- C3: for every item with at least one valid consumer and set-like shares
(no duplicate consumer), the integer allocations the item loop adds sum to
exactly `amountCents`, and each consumer receives either
`floor(amountCents / count)` or that plus one. -/
theorem c3_item_allocation_exact (ps : List Participant) (snapshot : String → Nat)
    (shs : List ItemShareInput) (item : Item)
    (hne : validConsumersOf ps shs item ≠ [])
    (hnd : (validConsumersOf ps shs item).Nodup) :
    ((itemAllocations ps snapshot item (validConsumersOf ps shs item)).map
        (fun pr => pr.2)).sum = item.amountCents ∧
    ∀ pr ∈ itemAllocations ps snapshot item (validConsumersOf ps shs item),
      pr.2 = item.amountCents / (validConsumersOf ps shs item).length ∨
      pr.2 = item.amountCents / (validConsumersOf ps shs item).length + 1 := by
  set valid := validConsumersOf ps shs item with hvalid
  have hn : 0 < valid.length := List.length_pos.mpr hne
  constructor
  · unfold itemAllocations
    rw [sum_map_add_ite, sortJS_length, ((sortJS_perm (participantCmp ps) valid)).countP_eq]
    by_cases hr : 0 < item.amountCents % valid.length
    · rw [if_pos hr]
      unfold remainderRecipientsOf
      have hsnd : (sortJS (participantCmp ps) valid).Nodup :=
        (sortJS_perm (participantCmp ps) valid).symm.nodup hnd
      have hs2nd : (sortJS (remainderCmp ps snapshot)
          (sortJS (participantCmp ps) valid)).Nodup :=
        (sortJS_perm _ _).symm.nodup hsnd
      have hperm2 : (sortJS (remainderCmp ps snapshot)
          (sortJS (participantCmp ps) valid)).Perm valid :=
        (sortJS_perm _ _).trans (sortJS_perm _ _)
      have hrle : item.amountCents % valid.length
          ≤ (sortJS (remainderCmp ps snapshot)
              (sortJS (participantCmp ps) valid)).length := by
        rw [sortJS_length, sortJS_length]
        exact le_of_lt (Nat.mod_lt _ hn)
      have hcount := take_countP_self hs2nd (item.amountCents % valid.length) hrle
      rw [← hperm2.countP_eq, hcount]
      exact Nat.div_add_mod item.amountCents valid.length
    · rw [if_neg hr]
      have hz : valid.countP (fun x => ([] : List String).contains x) = 0 := by
        rw [List.countP_eq_zero]
        intro a _
        simp
      rw [hz]
      have := Nat.div_add_mod item.amountCents valid.length
      omega
  · intro pr hpr
    unfold itemAllocations at hpr
    rw [List.mem_map] at hpr
    obtain ⟨pid, hpid, hpr⟩ := hpr
    subst hpr
    by_cases hc : List.contains
        (if 0 < item.amountCents % valid.length then
          remainderRecipientsOf ps snapshot (sortJS (participantCmp ps) valid)
            (item.amountCents % valid.length)
         else []) pid
    · right
      simp only [hc, if_true]
    · left
      simp only [hc, if_false]
      simp

/-- C3 witness: the per-item exactness theorem applied to a 1000-cent item
shared by three participants: allocations sum to 1000 and each is 333 or 334. -/
theorem c3_item_allocation_exact_witness :
    ((itemAllocations
        [{ id := "t1", name := "T1", splitId := "s", sortOrder := 0 },
         { id := "t2", name := "T2", splitId := "s", sortOrder := 1 },
         { id := "t3", name := "T3", splitId := "s", sortOrder := 2 }]
        (fun _ => 0)
        { id := "it", name := "Cake", splitId := "s", amountCents := 1000 }
        (validConsumersOf
          [{ id := "t1", name := "T1", splitId := "s", sortOrder := 0 },
           { id := "t2", name := "T2", splitId := "s", sortOrder := 1 },
           { id := "t3", name := "T3", splitId := "s", sortOrder := 2 }]
          [{ itemId := "it", participantId := "t1" },
           { itemId := "it", participantId := "t2" },
           { itemId := "it", participantId := "t3" }]
          { id := "it", name := "Cake", splitId := "s", amountCents := 1000 })).map
      (fun pr => pr.2)).sum = 1000 ∧
    ∀ pr ∈ itemAllocations
        [{ id := "t1", name := "T1", splitId := "s", sortOrder := 0 },
         { id := "t2", name := "T2", splitId := "s", sortOrder := 1 },
         { id := "t3", name := "T3", splitId := "s", sortOrder := 2 }]
        (fun _ => 0)
        { id := "it", name := "Cake", splitId := "s", amountCents := 1000 }
        (validConsumersOf
          [{ id := "t1", name := "T1", splitId := "s", sortOrder := 0 },
           { id := "t2", name := "T2", splitId := "s", sortOrder := 1 },
           { id := "t3", name := "T3", splitId := "s", sortOrder := 2 }]
          [{ itemId := "it", participantId := "t1" },
           { itemId := "it", participantId := "t2" },
           { itemId := "it", participantId := "t3" }]
          { id := "it", name := "Cake", splitId := "s", amountCents := 1000 }),
      pr.2 = 333 ∨ pr.2 = 334 :=
  c3_item_allocation_exact
    [{ id := "t1", name := "T1", splitId := "s", sortOrder := 0 },
     { id := "t2", name := "T2", splitId := "s", sortOrder := 1 },
     { id := "t3", name := "T3", splitId := "s", sortOrder := 2 }]
    (fun _ => 0)
    [{ itemId := "it", participantId := "t1" },
     { itemId := "it", participantId := "t2" },
     { itemId := "it", participantId := "t3" }]
    { id := "it", name := "Cake", splitId := "s", amountCents := 1000 }
    (by decide) (by decide)

/-! ## C4: per-extra exactness -/

theorem distributeCents_length (amount count : Nat) (h : 0 < count) :
    (distributeCents amount count).length = count := by
  unfold distributeCents
  rw [if_neg (by omega)]
  simp

theorem range_sum_ite (r b : Nat) :
    ∀ n, ((List.range n).map (fun i => if i < r then b + 1 else b)).sum
      = n * b + min r n := by
  intro n
  induction n with
  | zero => simp
  | succ n ih =>
    rw [List.range_succ, List.map_append, List.sum_append, ih]
    simp only [List.map_cons, List.map_nil, List.sum_cons, List.sum_nil]
    rw [Nat.succ_mul]
    by_cases hn : n < r
    · rw [if_pos hn]
      omega
    · rw [if_neg hn]
      omega

theorem distributeCents_sum (amount count : Nat) (h : 0 < count) :
    (distributeCents amount count).sum = amount := by
  unfold distributeCents
  rw [if_neg (by omega), range_sum_ite]
  have hlt : amount % count < count := Nat.mod_lt _ h
  have := Nat.div_add_mod amount count
  omega

theorem sum_div_rem (A T : Nat) (cs : List Nat) :
    A * cs.sum = T * ((cs.map (fun c => A * c / T)).sum)
      + ((cs.map (fun c => A * c % T)).sum) := by
  induction cs with
  | nil => simp
  | cons c cs ih =>
    simp only [List.sum_cons, List.map_cons, Nat.mul_add, ih]
    have := Nat.div_add_mod (A * c) T
    ring_nf
    omega

theorem sum_rem_le (A T : Nat) (hT : 0 < T) (cs : List Nat) :
    ((cs.map (fun c => A * c % T)).sum) ≤ cs.length * (T - 1) := by
  induction cs with
  | nil => simp
  | cons c cs ih =>
    simp only [List.map_cons, List.sum_cons, List.length_cons]
    have h1 : A * c % T < T := Nat.mod_lt _ hT
    have h2 : (cs.length + 1) * (T - 1) = cs.length * (T - 1) + (T - 1) := by ring
    omega

theorem assigned_bounds (A T : Nat) (hT : 0 < T) (cs : List Nat) (hcs : cs.sum = T) :
    (cs.map (fun c => A * c / T)).sum ≤ A ∧
    (0 < cs.length → A < (cs.map (fun c => A * c / T)).sum + cs.length) := by
  have hkey := sum_div_rem A T cs
  rw [hcs] at hkey
  have hkey' : T * A = T * ((cs.map (fun c => A * c / T)).sum)
      + ((cs.map (fun c => A * c % T)).sum) := by
    rw [← hkey]; ring
  constructor
  · exact Nat.le_of_mul_le_mul_left
      (by omega : T * ((cs.map (fun c => A * c / T)).sum) ≤ T * A) hT
  · intro hn
    have hrem := sum_rem_le A T hT cs
    have hx : cs.length * (T - 1) + cs.length = cs.length * T := by
      have hT1 : T - 1 + 1 = T := Nat.succ_pred_eq_of_pos hT
      calc cs.length * (T - 1) + cs.length = cs.length * ((T - 1) + 1) := by ring
      _ = cs.length * T := by rw [hT1]
    have hkey2 : T * A < T * ((cs.map (fun c => A * c / T)).sum) + cs.length * T := by
      omega
    have hmul : A * T < ((cs.map (fun c => A * c / T)).sum + cs.length) * T := by
      calc A * T = T * A := by ring
      _ < T * ((cs.map (fun c => A * c / T)).sum) + cs.length * T := hkey2
      _ = ((cs.map (fun c => A * c / T)).sum + cs.length) * T := by ring
    exact Nat.lt_of_mul_lt_mul_right hmul

/-- C4 (counterexample): a positive FIXED PROPORTIONAL extra of 50 cents with
zero total item consumption is skipped: its allocation list is empty (sum 0,
not 50), and the full run ends in the invariant error. The claim as stated,
quantifying over every positive extra, is therefore false. -/
theorem c4_undistributable_extra_counterexample :
    extraAllocations
      [{ id := "u1", name := "U1", splitId := "s", sortOrder := 0 },
       { id := "u2", name := "U2", splitId := "s", sortOrder := 1 }]
      (fun _ => 0) 0
      { id := "e4", splitId := "s", type := .FIXED, valueCents := some 50,
        valuePercentBp := none, allocationMode := .PROPORTIONAL }
      = Except.ok [] ∧
    extraAmountOf 0
      { id := "e4", splitId := "s", type := .FIXED, valueCents := some 50,
        valuePercentBp := none, allocationMode := .PROPORTIONAL } = 50 ∧
    calculateSplit
      [{ id := "u1", name := "U1", splitId := "s", sortOrder := 0 },
       { id := "u2", name := "U2", splitId := "s", sortOrder := 1 }]
      [] []
      [{ id := "e4", splitId := "s", type := .FIXED, valueCents := some 50,
         valuePercentBp := none, allocationMode := .PROPORTIONAL }] 0 0
      = Except.error "Invariant failed: Sum of participants (0) !== Total (50)" :=
  ⟨rfl, rfl, rfl⟩

/-- C4 (amended): for every extra whose computed integer amount is positive,
provided the extra is distributable — at least one participant for EQUAL
mode; positive total item consumption matching the participants' summed
item-only consumption for PROPORTIONAL mode — the allocations the extras
loop adds to participant totals sum to the extra's computed amount exactly
(FIXED → `valueCents`, SERVICE_PERCENT → `floor(itemsTotal * bp / 10000)`). -/
theorem c4_extra_allocation_exact (ps : List Participant)
    (itemsOnly : String → Nat) (T : Nat) (e : Extra)
    (hA : 0 < extraAmountOf T e)
    (hEq : e.allocationMode = .EQUAL → 0 < ps.length)
    (hProp : e.allocationMode = .PROPORTIONAL →
      0 < T ∧ (ps.map (fun p => itemsOnly p.id)).sum = T) :
    ∃ l, extraAllocations ps itemsOnly T e = Except.ok l ∧
      (l.map (fun pr => pr.2)).sum = extraAmountOf T e := by
  unfold extraAllocations
  rw [if_pos hA]
  cases hmode : e.allocationMode with
  | EQUAL =>
    have hc := hEq hmode
    rw [if_pos hc]
    refine ⟨_, rfl, ?_⟩
    have hlen : (sortJS (participantCmp ps) (ps.map (fun p => p.id))).length
        = ps.length := by
      rw [sortJS_length, List.length_map]
    rw [List.map_snd_zip _ _ (by rw [hlen, distributeCents_length _ _ hc]),
      distributeCents_sum _ _ hc]
  | PROPORTIONAL =>
    obtain ⟨hT, hsum⟩ := hProp hmode
    rw [if_pos hT]
    dsimp only
    set A := extraAmountOf T e with hA'
    set cs := ps.map (fun p => itemsOnly p.id) with hcs
    have hbase : (propCandidates ps itemsOnly T A).map (fun c => c.baseShare)
        = cs.map (fun c => A * c / T) := by
      rw [hcs]
      simp [propCandidates, List.map_map]
    have hlen : (propCandidates ps itemsOnly T A).length = cs.length := by
      rw [hcs]
      simp [propCandidates]
    obtain ⟨hle, hlt⟩ := assigned_bounds A T hT cs hsum
    rw [hbase]
    by_cases hrem : (0 : Int) < (A : Int) - ((cs.map (fun c => A * c / T)).sum : Int)
    · rw [if_pos hrem]
      have hn : 0 < cs.length := by
        rcases Nat.eq_zero_or_pos cs.length with h0 | h
        · exfalso
          have : cs = [] := List.length_eq_zero.mp h0
          rw [this] at hsum
          simp at hsum
          omega
        · exact h
      have hstrict := hlt hn
      rw [if_neg (by rw [hlen]; omega)]
      refine ⟨_, rfl, ?_⟩
      rw [List.map_append, List.sum_append]
      have hsnd : ((propCandidates ps itemsOnly T A).map
          (fun c => (c.pid, c.baseShare))).map (fun pr => pr.2)
          = cs.map (fun c => A * c / T) := by
        rw [List.map_map]
        exact hbase
      rw [hsnd]
      have htklen : ((sortJS propCmp (propCandidates ps itemsOnly T A)).take
          ((A : Int) - ((cs.map (fun c => A * c / T)).sum : Int)).toNat).length
          = ((A : Int) - ((cs.map (fun c => A * c / T)).sum : Int)).toNat := by
        rw [List.length_take, sortJS_length, hlen]
        omega
      have hconst : ∀ (l : List PropCandidate),
          ((l.map (fun c => (c.pid, (1 : Nat)))).map (fun pr => pr.2)).sum = l.length := by
        intro l
        induction l with
        | nil => simp
        | cons x xs ih =>
          simp only [List.map_cons, List.sum_cons, List.length_cons, ih]
          omega
      rw [hconst, htklen]
      omega
    · rw [if_neg hrem]
      refine ⟨_, rfl, ?_⟩
      rw [List.map_map]
      have : ((fun pr => pr.2) ∘ (fun c => (c.pid, c.baseShare)))
          = fun c : PropCandidate => c.baseShare := rfl
      rw [this, hbase]
      omega

/-- C4 witness: the per-extra exactness theorem applied to a FIXED
PROPORTIONAL extra of 100 cents over consumptions 700/300 (total 1000). -/
theorem c4_extra_allocation_exact_witness :
    ∃ l, extraAllocations
        [{ id := "u1", name := "U1", splitId := "s", sortOrder := 0 },
         { id := "u2", name := "U2", splitId := "s", sortOrder := 1 }]
        (fun pid => if pid = "u1" then 700 else 300) 1000
        { id := "e5", splitId := "s", type := .FIXED, valueCents := some 100,
          valuePercentBp := none, allocationMode := .PROPORTIONAL }
        = Except.ok l ∧
      (l.map (fun pr => pr.2)).sum
        = extraAmountOf 1000
            { id := "e5", splitId := "s", type := .FIXED, valueCents := some 100,
              valuePercentBp := none, allocationMode := .PROPORTIONAL } :=
  c4_extra_allocation_exact
    [{ id := "u1", name := "U1", splitId := "s", sortOrder := 0 },
     { id := "u2", name := "U2", splitId := "s", sortOrder := 1 }]
    (fun pid => if pid = "u1" then 700 else 300) 1000
    { id := "e5", splitId := "s", type := .FIXED, valueCents := some 100,
      valuePercentBp := none, allocationMode := .PROPORTIONAL }
    (by decide)
    (by intro h; exact absurd h (by decide))
    (by intro h; exact ⟨by decide, by decide⟩)

/-! ## C5: the orphaned-item error -/

theorem orphanMsg_data (i : Item) :
    ∃ rest, (orphanMsg i).data = 'I' :: 't' :: rest :=
  ⟨("em \"" : String).data ++ (i.name.data ++ ("\" has no valid consumers" : String).data), by
    show (("Item \"" ++ i.name) ++ "\" has no valid consumers").data = _
    rw [String.data_append, String.data_append, List.append_assoc]
    rfl⟩

theorem invariantMsg_data (s t : Nat) :
    ∃ rest, (invariantMsg s t).data = 'I' :: 'n' :: rest :=
  ⟨("variant failed: Sum of participants (" : String).data ++ ((toString s).data
      ++ ((") !== Total (" : String).data ++ ((toString t).data ++ (")" : String).data))), by
    show (((("Invariant failed: Sum of participants (" ++ toString s) ++ ") !== Total (")
        ++ toString t) ++ ")").data = _
    rw [String.data_append, String.data_append, String.data_append, String.data_append]
    rw [List.append_assoc, List.append_assoc, List.append_assoc]
    rfl⟩

theorem orphanMsg_ne_invariantMsg (i : Item) (s t : Nat) :
    orphanMsg i ≠ invariantMsg s t := by
  intro h
  obtain ⟨r1, h1⟩ := orphanMsg_data i
  obtain ⟨r2, h2⟩ := invariantMsg_data s t
  have hd := congrArg String.data h
  rw [h1, h2] at hd
  simp at hd

theorem orphanMsg_ne_typeError (i : Item) :
    orphanMsg i ≠ "TypeError: Cannot read properties of undefined" := by
  intro h
  obtain ⟨r1, h1⟩ := orphanMsg_data i
  have h2 : ∃ r, ("TypeError: Cannot read properties of undefined" : String).data
      = 'T' :: r := ⟨_, rfl⟩
  obtain ⟨r2, h2⟩ := h2
  have hd := congrArg String.data h
  rw [h1, h2] at hd
  simp at hd

theorem processItem_error {ps : List Participant} {shs : List ItemShareInput}
    {st : SplitState} {item : Item}
    (h : validConsumersOf ps shs item = []) :
    processItem ps shs st item = Except.error (orphanMsg item) := by
  unfold processItem
  rw [if_pos (by simp [h])]

theorem processItem_ok {ps : List Participant} {shs : List ItemShareInput}
    (st : SplitState) {item : Item}
    (h : validConsumersOf ps shs item ≠ []) :
    ∃ st', processItem ps shs st item = Except.ok st' := by
  unfold processItem
  rw [if_neg (by simp [h])]
  exact ⟨_, rfl⟩

theorem itemsFold_orphan (ps : List Participant) (shs : List ItemShareInput) :
    ∀ (its : List Item) (st : SplitState) (i₀ : Item),
      its.find? (fun i => (validConsumersOf ps shs i).isEmpty) = some i₀ →
      List.foldlM (processItem ps shs) st its = Except.error (orphanMsg i₀)
  | [], st, i₀, h => by simp at h
  | i :: its, st, i₀, h => by
    rw [List.foldlM_cons]
    by_cases hi : (validConsumersOf ps shs i).isEmpty
    · rw [@List.find?_cons_of_pos _ (fun i => (validConsumersOf ps shs i).isEmpty)
        i its hi] at h
      have : i = i₀ := by simpa using h
      subst this
      rw [processItem_error (List.isEmpty_iff.mp hi)]
      rfl
    · rw [@List.find?_cons_of_neg _ (fun i => (validConsumersOf ps shs i).isEmpty)
        i its hi] at h
      obtain ⟨st', hst'⟩ := processItem_ok st
        (show validConsumersOf ps shs i ≠ [] from fun hemp => hi (by simp [hemp]))
      rw [hst']
      exact itemsFold_orphan ps shs its st' i₀ h

theorem itemsFold_ok (ps : List Participant) (shs : List ItemShareInput) :
    ∀ (its : List Item) (st : SplitState),
      its.find? (fun i => (validConsumersOf ps shs i).isEmpty) = none →
      ∃ stI, List.foldlM (processItem ps shs) st its = Except.ok stI
  | [], st, _ => ⟨st, rfl⟩
  | i :: its, st, h => by
    by_cases hi : (validConsumersOf ps shs i).isEmpty
    · rw [@List.find?_cons_of_pos _ (fun i => (validConsumersOf ps shs i).isEmpty)
        i its hi] at h
      exact absurd h (by simp)
    · rw [@List.find?_cons_of_neg _ (fun i => (validConsumersOf ps shs i).isEmpty)
        i its hi] at h
      obtain ⟨st', hst'⟩ := processItem_ok st
        (show validConsumersOf ps shs i ≠ [] from fun hemp => hi (by simp [hemp]))
      obtain ⟨stI, hI⟩ := itemsFold_ok ps shs its st' h
      exact ⟨stI, by rw [List.foldlM_cons, hst']; exact hI⟩

theorem extraAllocations_error {ps : List Participant} {itemsOnly : String → Nat}
    {T : Nat} {e : Extra} {m : String}
    (h : extraAllocations ps itemsOnly T e = Except.error m) :
    m = "TypeError: Cannot read properties of undefined" := by
  unfold extraAllocations at h
  dsimp only at h
  repeat' split at h
  all_goals first
    | exact (Except.error.inj h).symm
    | simp at h

theorem processExtra_error {ps : List Participant} {st : SplitState} {e : Extra}
    {m : String} (h : processExtra ps st e = Except.error m) :
    m = "TypeError: Cannot read properties of undefined" := by
  unfold processExtra at h
  rcases hA : extraAllocations ps st.itemsOnlyTotals st.itemsTotalCents e with m' | allocs
  · rw [hA] at h
    dsimp only at h
    exact (Except.error.inj h).symm.trans (extraAllocations_error hA)
  · rw [hA] at h
    dsimp only at h
    split at h
    · exact absurd h (by simp)
    · exact absurd h (by simp)

theorem extrasFold_error (ps : List Participant) :
    ∀ (exs : List Extra) (st : SplitState) (m : String),
      List.foldlM (processExtra ps) st exs = Except.error m →
      m = "TypeError: Cannot read properties of undefined"
  | [], st, m, h => by simp [pure, Except.pure] at h
  | e :: exs, st, m, h => by
    rw [List.foldlM_cons] at h
    rcases hE : processExtra ps st e with m' | st'
    · rw [hE] at h
      have : m' = m := by
        have : Except.error (ε := String) m' = Except.error m := h
        exact Except.error.inj this
      exact this ▸ processExtra_error hE
    · rw [hE] at h
      exact extrasFold_error ps exs st' m h

/-- C5: `calculateSplit` raises the structural orphaned-item error exactly
when some item has zero valid consumers after dropping shares of unknown
participants: if the first such item is `i₀`, the run fails with the orphan
message naming `i₀`; if no such item exists, no orphan-shaped error is ever
raised (any failure is the TypeError or internal invariant error, which are
distinct strings). -/
theorem c5_orphan_error_iff (ps : List Participant) (its : List Item)
    (shs : List ItemShareInput) (exs : List Extra) (b a : Nat) :
    (∀ i₀, its.find? (fun i => (validConsumersOf ps shs i).isEmpty) = some i₀ →
      calculateSplit ps its shs exs b a = Except.error (orphanMsg i₀)) ∧
    (its.find? (fun i => (validConsumersOf ps shs i).isEmpty) = none →
      ∀ i : Item, calculateSplit ps its shs exs b a ≠ Except.error (orphanMsg i)) := by
  constructor
  · intro i₀ h
    unfold calculateSplit calculateSplitF
    rw [itemsFold_orphan ps shs its initState i₀ h]
  · intro h i hcontra
    unfold calculateSplit calculateSplitF at hcontra
    obtain ⟨stI, hI⟩ := itemsFold_ok ps shs its initState h
    rw [hI] at hcontra
    dsimp only at hcontra
    rcases hE : List.foldlM (processExtra ps) stI exs with m | stE
    · rw [hE] at hcontra
      have hm := extrasFold_error ps exs stI m hE
      rw [hm] at hcontra
      exact orphanMsg_ne_typeError i (Except.error.inj hcontra).symm
    · rw [hE] at hcontra
      dsimp only at hcontra
      split at hcontra
      · exact orphanMsg_ne_invariantMsg i _ _ (Except.error.inj hcontra).symm
      · exact absurd hcontra (by simp)

/-- C5 witness: the orphan-error characterization applied to a run whose
only item has no shares (orphan raised, naming the item) and to a clean run
(no orphan error possible). -/
theorem c5_orphan_error_iff_witness :
    calculateSplit
      [{ id := "q1", name := "Q1", splitId := "s", sortOrder := 0 }]
      [{ id := "io", name := "Sushi", splitId := "s", amountCents := 900 }]
      [] [] 0 0
      = Except.error "Item \"Sushi\" has no valid consumers" ∧
    calculateSplit
      [{ id := "q1", name := "Q1", splitId := "s", sortOrder := 0 }]
      [{ id := "ik", name := "Rolls", splitId := "s", amountCents := 900 }]
      [{ itemId := "ik", participantId := "q1" }] [] 0 0
      ≠ Except.error (orphanMsg
          { id := "ik", name := "Rolls", splitId := "s", amountCents := 900 }) :=
  ⟨(c5_orphan_error_iff
      [{ id := "q1", name := "Q1", splitId := "s", sortOrder := 0 }]
      [{ id := "io", name := "Sushi", splitId := "s", amountCents := 900 }]
      [] [] 0 0).1
      { id := "io", name := "Sushi", splitId := "s", amountCents := 900 } (by rfl),
   (c5_orphan_error_iff
      [{ id := "q1", name := "Q1", splitId := "s", sortOrder := 0 }]
      [{ id := "ik", name := "Rolls", splitId := "s", amountCents := 900 }]
      [{ itemId := "ik", participantId := "q1" }] [] 0 0).2 (by rfl)
      { id := "ik", name := "Rolls", splitId := "s", amountCents := 900 }⟩

/-! ## C7: proportional base isolation -/

theorem foldl_addTotals_fields (allocs : List (String × Nat)) :
    ∀ (st0 : SplitState),
      ((allocs.foldl (fun s pr =>
          { s with participantTotals := bump s.participantTotals pr.1 pr.2 }) st0).itemsOnlyTotals
        = st0.itemsOnlyTotals) ∧
      ((allocs.foldl (fun s pr =>
          { s with participantTotals := bump s.participantTotals pr.1 pr.2 }) st0).itemsTotalCents
        = st0.itemsTotalCents) := by
  induction allocs with
  | nil => intro st0; exact ⟨rfl, rfl⟩
  | cons pr rest ih =>
    intro st0
    rw [List.foldl_cons]
    exact ih _

theorem foldl_addRaw_fields (allocs : List (String × Nat)) (v : Frac) :
    ∀ (st0 : SplitState),
      ((allocs.foldl (fun s pr =>
          { s with participantTotalsRawCents :=
              bumpQ s.participantTotalsRawCents pr.1 v }) st0).itemsOnlyTotals
        = st0.itemsOnlyTotals) ∧
      ((allocs.foldl (fun s pr =>
          { s with participantTotalsRawCents :=
              bumpQ s.participantTotalsRawCents pr.1 v }) st0).itemsTotalCents
        = st0.itemsTotalCents) := by
  induction allocs with
  | nil => intro st0; exact ⟨rfl, rfl⟩
  | cons pr rest ih =>
    intro st0
    rw [List.foldl_cons]
    exact ih _

theorem processExtra_preserves {ps : List Participant} {st st' : SplitState}
    {e : Extra} (h : processExtra ps st e = Except.ok st') :
    st'.itemsOnlyTotals = st.itemsOnlyTotals ∧
    st'.itemsTotalCents = st.itemsTotalCents := by
  unfold processExtra at h
  rcases hA : extraAllocations ps st.itemsOnlyTotals st.itemsTotalCents e with m | allocs
  · rw [hA] at h
    exact absurd h (by simp)
  · rw [hA] at h
    dsimp only at h
    split at h
    · have hst' := (Except.ok.inj h).symm
      subst hst'
      obtain ⟨hio2, hit2⟩ := foldl_addRaw_fields allocs _
        (allocs.foldl (fun s pr =>
          { s with participantTotals := bump s.participantTotals pr.1 pr.2 })
          { st with extrasTotalCents := st.extrasTotalCents + extraAmountOf st.itemsTotalCents e })
      obtain ⟨hio1, hit1⟩ := foldl_addTotals_fields allocs
        { st with extrasTotalCents := st.extrasTotalCents + extraAmountOf st.itemsTotalCents e }
      exact ⟨hio2.trans hio1, hit2.trans hit1⟩
    · have hst' := (Except.ok.inj h).symm
      subst hst'
      obtain ⟨hio1, hit1⟩ := foldl_addTotals_fields allocs
        { st with extrasTotalCents := st.extrasTotalCents + extraAmountOf st.itemsTotalCents e }
      exact ⟨hio1, hit1⟩

theorem extrasFold_preserves (ps : List Participant) :
    ∀ (exs : List Extra) (st st' : SplitState),
      List.foldlM (processExtra ps) st exs = Except.ok st' →
      st'.itemsOnlyTotals = st.itemsOnlyTotals ∧
      st'.itemsTotalCents = st.itemsTotalCents
  | [], st, st', h => by
    have : st = st' := Except.ok.inj h
    subst this
    exact ⟨rfl, rfl⟩
  | e :: exs, st, st', h => by
    rw [List.foldlM_cons] at h
    rcases hE : processExtra ps st e with m | st1
    · rw [hE] at h
      exact absurd (show Except.error (ε := String) m = Except.ok st' from h) (by simp)
    · rw [hE] at h
      obtain ⟨hio1, hit1⟩ := processExtra_preserves hE
      obtain ⟨hio2, hit2⟩ := extrasFold_preserves ps exs st1 st' h
      exact ⟨hio2.trans hio1, hit2.trans hit1⟩

/-- C7: the base of every PROPORTIONAL extra is the item-only integer
consumption computed by the item phase: the extras loop never changes
`itemsOnlyTotals` or `itemsTotalCents`, so the integer allocation of an extra
`e` is identical no matter which other extras precede or accompany it
(`pre₁` versus `pre₂`) on inputs agreeing on participants, items and shares
(the shared starting state `st`). -/
theorem c7_proportional_base_isolation (ps : List Participant) (st : SplitState)
    (pre₁ pre₂ : List Extra) (st₁ st₂ : SplitState) (e : Extra)
    (h₁ : List.foldlM (processExtra ps) st pre₁ = Except.ok st₁)
    (h₂ : List.foldlM (processExtra ps) st pre₂ = Except.ok st₂) :
    extraAllocations ps st₁.itemsOnlyTotals st₁.itemsTotalCents e
      = extraAllocations ps st₂.itemsOnlyTotals st₂.itemsTotalCents e := by
  obtain ⟨hio1, hit1⟩ := extrasFold_preserves ps pre₁ st st₁ h₁
  obtain ⟨hio2, hit2⟩ := extrasFold_preserves ps pre₂ st st₂ h₂
  rw [hio1, hit1, hio2, hit2]

/-- C7 witness: isolation applied to the concrete scenario — p1 consumes all
of a 1000-cent item, p2 nothing; an EQUAL 200 extra preceding the
PROPORTIONAL 100 extra does not change the latter's allocation, which gives
p1 all 100 cents and p2 none; the full run yields p1 ↦ 1200, p2 ↦ 100. -/
theorem c7_proportional_base_isolation_witness :
    extraAllocations
        [{ id := "p1", name := "P1", splitId := "s", sortOrder := 0 },
         { id := "p2", name := "P2", splitId := "s", sortOrder := 1 }]
        (fun pid => if pid = "p1" then 1000 else 0) 1000
        { id := "e2", splitId := "s", type := .FIXED, valueCents := some 100,
          valuePercentBp := none, allocationMode := .PROPORTIONAL }
      = extraAllocations
        [{ id := "p1", name := "P1", splitId := "s", sortOrder := 0 },
         { id := "p2", name := "P2", splitId := "s", sortOrder := 1 }]
        (fun pid => if pid = "p1" then 1000 else 0) 1000
        { id := "e2", splitId := "s", type := .FIXED, valueCents := some 100,
          valuePercentBp := none, allocationMode := .PROPORTIONAL } ∧
    extraAllocations
        [{ id := "p1", name := "P1", splitId := "s", sortOrder := 0 },
         { id := "p2", name := "P2", splitId := "s", sortOrder := 1 }]
        (fun pid => if pid = "p1" then 1000 else 0) 1000
        { id := "e2", splitId := "s", type := .FIXED, valueCents := some 100,
          valuePercentBp := none, allocationMode := .PROPORTIONAL }
      = Except.ok [("p1", 100), ("p2", 0)] ∧
    (calculateSplit
        [{ id := "p1", name := "P1", splitId := "s", sortOrder := 0 },
         { id := "p2", name := "P2", splitId := "s", sortOrder := 1 }]
        [{ id := "i1", name := "Steak", splitId := "s", amountCents := 1000 }]
        [{ itemId := "i1", participantId := "p1" }]
        [{ id := "e1", splitId := "s", type := .FIXED, valueCents := some 200,
           valuePercentBp := none, allocationMode := .EQUAL },
         { id := "e2", splitId := "s", type := .FIXED, valueCents := some 100,
           valuePercentBp := none, allocationMode := .PROPORTIONAL }] 0 0).map
      (fun r => r.participantTotals) = Except.ok [("p1", 1200), ("p2", 100)] :=
  ⟨c7_proportional_base_isolation
    [{ id := "p1", name := "P1", splitId := "s", sortOrder := 0 },
     { id := "p2", name := "P2", splitId := "s", sortOrder := 1 }]
    { participantTotals := fun pid => if pid = "p1" then 1000 else 0
      itemsOnlyTotals := fun pid => if pid = "p1" then 1000 else 0
      participantTotalsRawCents :=
        fun pid => if pid = "p1" then { num := 1000, den := 1 } else { num := 0, den := 1 }
      itemsOnlyTotalsRawCents :=
        fun pid => if pid = "p1" then { num := 1000, den := 1 } else { num := 0, den := 1 }
      itemsTotalCents := 1000
      extrasTotalCents := 0 }
    [{ id := "e1", splitId := "s", type := .FIXED, valueCents := some 200,
       valuePercentBp := none, allocationMode := .EQUAL }]
    []
    { participantTotals :=
        bump (bump (fun pid => if pid = "p1" then 1000 else 0) "p1" 100) "p2" 100
      itemsOnlyTotals := fun pid => if pid = "p1" then 1000 else 0
      participantTotalsRawCents :=
        bumpQ (bumpQ
          (fun pid => if pid = "p1" then { num := 1000, den := 1 } else { num := 0, den := 1 })
          "p1" { num := 100, den := 1 }) "p2" { num := 100, den := 1 }
      itemsOnlyTotalsRawCents :=
        fun pid => if pid = "p1" then { num := 1000, den := 1 } else { num := 0, den := 1 }
      itemsTotalCents := 1000
      extrasTotalCents := 200 }
    { participantTotals := fun pid => if pid = "p1" then 1000 else 0
      itemsOnlyTotals := fun pid => if pid = "p1" then 1000 else 0
      participantTotalsRawCents :=
        fun pid => if pid = "p1" then { num := 1000, den := 1 } else { num := 0, den := 1 }
      itemsOnlyTotalsRawCents :=
        fun pid => if pid = "p1" then { num := 1000, den := 1 } else { num := 0, den := 1 }
      itemsTotalCents := 1000
      extrasTotalCents := 0 }
    { id := "e2", splitId := "s", type := .FIXED, valueCents := some 100,
      valuePercentBp := none, allocationMode := .PROPORTIONAL }
    (by rfl) (by rfl),
   by rfl, by rfl⟩

/-! ## C6: remainder recipients are the lowest-total consumers -/

theorem charListLt_asymm : ∀ {x y : List Char},
    charListLt x y = true → charListLt y x = false
  | _ :: _, [], h => by simp [charListLt] at h
  | [], [], h => by simp [charListLt] at h
  | [], _ :: _, _ => by simp [charListLt]
  | a :: as, b :: bs, h => by
    unfold charListLt at h ⊢
    rcases lt_trichotomy a b with hab | hab | hab
    · rw [if_neg hab.asymm, if_pos hab]
    · subst hab
      rw [if_neg (lt_irrefl a), if_neg (lt_irrefl a)] at h ⊢
      exact charListLt_asymm h
    · rw [if_neg hab.asymm, if_pos hab] at h
      exact absurd h (by simp)

theorem charListLt_trans : ∀ {x y z : List Char},
    charListLt x y = true → charListLt y z = true → charListLt x z = true
  | _, _, [], _, h2 => by simp [charListLt] at h2
  | _, [], _ :: _, h1, _ => by simp [charListLt] at h1
  | [], _ :: _, _ :: _, _, _ => by simp [charListLt]
  | a :: as, b :: bs, c :: cs, h1, h2 => by
    unfold charListLt at h1 h2 ⊢
    rcases lt_trichotomy a b with hab | hab | hab
    · rcases lt_trichotomy b c with hbc | hbc | hbc
      · rw [if_pos (hab.trans hbc)]
      · subst hbc
        rw [if_pos hab]
      · rw [if_neg hbc.asymm, if_pos hbc] at h2
        exact absurd h2 (by simp)
    · subst hab
      rcases lt_trichotomy a c with hbc | hbc | hbc
      · rw [if_pos hbc]
      · subst hbc
        rw [if_neg (lt_irrefl a), if_neg (lt_irrefl a)] at h1 h2 ⊢
        exact charListLt_trans h1 h2
      · rw [if_neg hbc.asymm, if_pos hbc] at h2
        exact absurd h2 (by simp)
    · rw [if_neg hab.asymm, if_pos hab] at h1
      exact absurd h1 (by simp)

theorem charListLt_conn : ∀ {x y : List Char},
    charListLt x y = false → charListLt y x = false → x = y
  | [], [], _, _ => rfl
  | [], _ :: _, h1, _ => by simp [charListLt] at h1
  | _ :: _, [], _, h2 => by simp [charListLt] at h2
  | a :: as, b :: bs, h1, h2 => by
    unfold charListLt at h1 h2
    rcases lt_trichotomy a b with hab | hab | hab
    · rw [if_pos hab] at h1
      exact absurd h1 (by simp)
    · subst hab
      rw [if_neg (lt_irrefl a), if_neg (lt_irrefl a)] at h1 h2
      rw [charListLt_conn h1 h2]
    · rw [if_neg hab.asymm, if_pos hab] at h2
      exact absurd h2 (by simp)

theorem string_data_inj {a b : String} (h : a.data = b.data) : a = b := by
  cases a with
  | mk d1 =>
    cases b with
    | mk d2 => exact congrArg String.mk h

theorem strCmpJS_eq_gt_iff {a b : String} :
    strCmpJS a b = .gt ↔ charListLt b.data a.data = true := by
  unfold strCmpJS
  by_cases hab : charListLt a.data b.data = true
  · rw [if_pos hab]
    simp [charListLt_asymm hab]
  · rw [if_neg hab]
    by_cases hba : charListLt b.data a.data = true
    · rw [if_pos hba]
      simp [hba]
    · rw [if_neg hba]
      simp [hba]

/-- The strict precedence order realized by the remainder-recipient
comparator: lower running item-only total first, ties broken by
`(sortOrder, id)` ascending. -/
def remKeyLt (ps : List Participant) (snapshot : String → Nat) (a b : String) : Prop :=
  snapshot a < snapshot b ∨
  (snapshot a = snapshot b ∧
    ((pget ps a).sortOrder < (pget ps b).sortOrder ∨
      ((pget ps a).sortOrder = (pget ps b).sortOrder ∧
        charListLt a.data b.data = true)))

theorem remainderCmp_eq_gt_iff {ps : List Participant} {snapshot : String → Nat}
    {a b : String} :
    remainderCmp ps snapshot a b = .gt ↔ remKeyLt ps snapshot b a := by
  unfold remainderCmp remKeyLt
  dsimp only
  rw [pget_id, pget_id]
  by_cases h1 : snapshot a = snapshot b
  · rw [if_neg (not_not_intro h1)]
    by_cases h2 : (pget ps a).sortOrder = (pget ps b).sortOrder
    · rw [if_neg (not_not_intro h2), strCmpJS_eq_gt_iff]
      constructor
      · intro h
        exact Or.inr ⟨h1.symm, Or.inr ⟨h2.symm, h⟩⟩
      · rintro (h | ⟨-, h | ⟨-, h⟩⟩)
        · omega
        · omega
        · exact h
    · rw [if_pos h2, ordCompare_eq_gt_iff]
      constructor
      · intro h
        exact Or.inr ⟨h1.symm, Or.inl h⟩
      · rintro (h | ⟨-, h | ⟨h, -⟩⟩)
        · omega
        · exact h
        · omega
  · rw [if_pos h1, ordCompare_eq_gt_iff]
    constructor
    · intro h
      exact Or.inl h
    · rintro (h | ⟨h, -⟩)
      · exact h
      · omega

theorem remKeyLt_asymm {ps : List Participant} {snapshot : String → Nat}
    {a b : String} (h : remKeyLt ps snapshot a b) : ¬ remKeyLt ps snapshot b a := by
  rcases h with h | ⟨he, h2 | ⟨he2, h3⟩⟩
  · rintro (h' | ⟨he', -⟩)
    · omega
    · omega
  · rintro (h' | ⟨-, h2' | ⟨he2', -⟩⟩)
    · omega
    · omega
    · omega
  · rintro (h' | ⟨-, h2' | ⟨-, h3'⟩⟩)
    · omega
    · omega
    · rw [charListLt_asymm h3] at h3'
      exact absurd h3' (by simp)

theorem remKeyLt_trans {ps : List Participant} {snapshot : String → Nat}
    {a b c : String} (h1 : remKeyLt ps snapshot a b) (h2 : remKeyLt ps snapshot b c) :
    remKeyLt ps snapshot a c := by
  rcases h1 with h1 | ⟨he1, hs1 | ⟨hse1, hl1⟩⟩ <;>
    rcases h2 with h2 | ⟨he2, hs2 | ⟨hse2, hl2⟩⟩
  · exact Or.inl (by omega)
  · exact Or.inl (by omega)
  · exact Or.inl (by omega)
  · exact Or.inl (by omega)
  · exact Or.inr ⟨by omega, Or.inl (by omega)⟩
  · exact Or.inr ⟨by omega, Or.inl (by omega)⟩
  · exact Or.inl (by omega)
  · exact Or.inr ⟨by omega, Or.inl (by omega)⟩
  · exact Or.inr ⟨by omega, Or.inr ⟨by omega, charListLt_trans hl1 hl2⟩⟩

theorem remKeyLt_conn {ps : List Participant} {snapshot : String → Nat}
    {a b : String} (h1 : ¬ remKeyLt ps snapshot a b) (h2 : ¬ remKeyLt ps snapshot b a) :
    a = b := by
  unfold remKeyLt at h1 h2
  push_neg at h1 h2
  by_cases he : snapshot a = snapshot b
  · obtain ⟨hs1, hl1⟩ := h1.2 he
    obtain ⟨hs2, hl2⟩ := h2.2 he.symm
    by_cases hse : (pget ps a).sortOrder = (pget ps b).sortOrder
    · have hll1 := hl1 hse
      have hll2 := hl2 hse.symm
      exact string_data_inj (charListLt_conn (by simpa using hll1) (by simpa using hll2))
    · omega
  · omega

theorem jsSortLe_remainderCmp_iff {ps : List Participant} {snapshot : String → Nat}
    {a b : String} :
    jsSortLe (remainderCmp ps snapshot) a b ↔ ¬ remKeyLt ps snapshot b a := by
  unfold jsSortLe
  rw [Ne, remainderCmp_eq_gt_iff]

theorem remainderCmp_total (ps : List Participant) (snapshot : String → Nat) :
    ∀ a b, jsSortLe (remainderCmp ps snapshot) a b ∨
      jsSortLe (remainderCmp ps snapshot) b a := by
  intro a b
  by_cases h : remKeyLt ps snapshot b a
  · right
    rw [jsSortLe_remainderCmp_iff]
    exact remKeyLt_asymm h
  · left
    rw [jsSortLe_remainderCmp_iff]
    exact h

theorem remainderCmp_trans (ps : List Participant) (snapshot : String → Nat) :
    ∀ a b c, jsSortLe (remainderCmp ps snapshot) a b →
      jsSortLe (remainderCmp ps snapshot) b c →
      jsSortLe (remainderCmp ps snapshot) a c := by
  intro a b c hab hbc
  rw [jsSortLe_remainderCmp_iff] at hab hbc ⊢
  intro hca
  by_cases hab' : remKeyLt ps snapshot a b
  · exact hbc (remKeyLt_trans hca hab')
  · have : a = b := remKeyLt_conn hab' hab
    subst this
    exact hbc hca

/-- C6: when an item leaves a positive remainder `r`, the selected remainder
recipients are exactly `r` distinct valid consumers, and every recipient
strictly precedes every non-recipient consumer in the order "lower running
item-only total first, ties by `(sortOrder, id)` ascending" — so the `r`
extra cents go to the `r` lowest consumers; and the item's allocation gives
exactly those recipients `base + 1`. -/
theorem c6_remainder_recipients_lowest (ps : List Participant)
    (snapshot : String → Nat) (item : Item) (valid : List String)
    (hnd : valid.Nodup) (hne : valid ≠ [])
    (hr : 0 < item.amountCents % valid.length) :
    (remainderRecipientsOf ps snapshot (sortJS (participantCmp ps) valid)
        (item.amountCents % valid.length)).length
      = item.amountCents % valid.length ∧
    (remainderRecipientsOf ps snapshot (sortJS (participantCmp ps) valid)
        (item.amountCents % valid.length)).Nodup ∧
    (∀ pid ∈ remainderRecipientsOf ps snapshot (sortJS (participantCmp ps) valid)
        (item.amountCents % valid.length), pid ∈ valid) ∧
    (∀ x ∈ remainderRecipientsOf ps snapshot (sortJS (participantCmp ps) valid)
        (item.amountCents % valid.length),
      ∀ y ∈ valid, y ∉ remainderRecipientsOf ps snapshot (sortJS (participantCmp ps) valid)
        (item.amountCents % valid.length) →
      remKeyLt ps snapshot x y) ∧
    itemAllocations ps snapshot item valid
      = (sortJS (participantCmp ps) valid).map (fun pid =>
          (pid, item.amountCents / valid.length +
            (if (remainderRecipientsOf ps snapshot (sortJS (participantCmp ps) valid)
                (item.amountCents % valid.length)).contains pid then 1 else 0))) := by
  have hn : 0 < valid.length := List.length_pos.mpr hne
  have hrn : item.amountCents % valid.length < valid.length := Nat.mod_lt _ hn
  have hperm : (sortJS (remainderCmp ps snapshot)
      (sortJS (participantCmp ps) valid)).Perm valid :=
    (sortJS_perm _ _).trans (sortJS_perm _ _)
  have hlen2 : (sortJS (remainderCmp ps snapshot)
      (sortJS (participantCmp ps) valid)).length = valid.length := by
    rw [sortJS_length, sortJS_length]
  have hnd2 : (sortJS (remainderCmp ps snapshot)
      (sortJS (participantCmp ps) valid)).Nodup := hperm.symm.nodup hnd
  refine ⟨?_, ?_, ?_, ?_, ?_⟩
  · unfold remainderRecipientsOf
    rw [List.length_take, hlen2]
    omega
  · exact (List.take_sublist _ _).nodup hnd2
  · intro pid hpid
    exact hperm.mem_iff.mp ((List.take_sublist _ _).mem hpid)
  · intro x hx y hy hynot
    have hy2 : y ∈ sortJS (remainderCmp ps snapshot)
        (sortJS (participantCmp ps) valid) := hperm.mem_iff.mpr hy
    have hy3 : y ∈ remainderRecipientsOf ps snapshot (sortJS (participantCmp ps) valid)
          (item.amountCents % valid.length) ++
        (sortJS (remainderCmp ps snapshot) (sortJS (participantCmp ps) valid)).drop
          (item.amountCents % valid.length) := by
      unfold remainderRecipientsOf
      rw [List.take_append_drop]
      exact hy2
    rcases List.mem_append.mp hy3 with hcase | hcase
    · exact absurd hcase hynot
    · have hsorted := sortJS_sorted (remainderCmp ps snapshot)
        (remainderCmp_total ps snapshot) (remainderCmp_trans ps snapshot)
        (sortJS (participantCmp ps) valid)
      have hpw := hsorted
      rw [← List.take_append_drop (item.amountCents % valid.length)
        (sortJS (remainderCmp ps snapshot) (sortJS (participantCmp ps) valid))] at hpw
      have hle := (List.pairwise_append.mp hpw).2.2 x hx y hcase
      rw [jsSortLe_remainderCmp_iff] at hle
      by_contra hnot
      have hxy : x = y := remKeyLt_conn hnot hle
      subst hxy
      exact hynot hx
  · unfold itemAllocations
    dsimp only
    rw [if_pos hr]

/-- C6 witness: the selection theorem applied to a single 1000-cent item
shared by three participants with running totals all zero: remainder 1, the
single recipient is the participant with the smallest `sortOrder`, and the
allocation is 334/333/333. -/
theorem c6_remainder_recipients_lowest_witness :
    (remainderRecipientsOf
        [{ id := "p1", name := "P1", splitId := "s", sortOrder := 0 },
         { id := "p2", name := "P2", splitId := "s", sortOrder := 1 },
         { id := "p3", name := "P3", splitId := "s", sortOrder := 2 }]
        (fun _ => 0)
        (sortJS (participantCmp
          [{ id := "p1", name := "P1", splitId := "s", sortOrder := 0 },
           { id := "p2", name := "P2", splitId := "s", sortOrder := 1 },
           { id := "p3", name := "P3", splitId := "s", sortOrder := 2 }])
          ["p1", "p2", "p3"])
        (1000 % 3)).length = 1000 % 3 ∧
    remainderRecipientsOf
        [{ id := "p1", name := "P1", splitId := "s", sortOrder := 0 },
         { id := "p2", name := "P2", splitId := "s", sortOrder := 1 },
         { id := "p3", name := "P3", splitId := "s", sortOrder := 2 }]
        (fun _ => 0)
        (sortJS (participantCmp
          [{ id := "p1", name := "P1", splitId := "s", sortOrder := 0 },
           { id := "p2", name := "P2", splitId := "s", sortOrder := 1 },
           { id := "p3", name := "P3", splitId := "s", sortOrder := 2 }])
          ["p1", "p2", "p3"])
        (1000 % 3) = ["p1"] ∧
    itemAllocations
        [{ id := "p1", name := "P1", splitId := "s", sortOrder := 0 },
         { id := "p2", name := "P2", splitId := "s", sortOrder := 1 },
         { id := "p3", name := "P3", splitId := "s", sortOrder := 2 }]
        (fun _ => 0)
        { id := "i6", name := "Wine", splitId := "s", amountCents := 1000 }
        ["p1", "p2", "p3"]
      = [("p1", 334), ("p2", 333), ("p3", 333)] :=
  ⟨(c6_remainder_recipients_lowest
      [{ id := "p1", name := "P1", splitId := "s", sortOrder := 0 },
       { id := "p2", name := "P2", splitId := "s", sortOrder := 1 },
       { id := "p3", name := "P3", splitId := "s", sortOrder := 2 }]
      (fun _ => 0)
      { id := "i6", name := "Wine", splitId := "s", amountCents := 1000 }
      ["p1", "p2", "p3"] (by decide) (by decide) (by decide)).1,
   by rfl, by rfl⟩

/-! ## C8: the exact-value formatter -/

/-- Numeric value of a decimal digit string (most significant digit first). -/
def digitsToNat (s : String) : Nat :=
  s.data.foldl (fun a c => a * 10 + (c.toNat - '0'.toNat)) 0

theorem toString_digit_length {m : Nat} (h : m < 10) : (toString m).length = 1 := by
  interval_cases m <;> rfl

theorem digitsToNat_single {m : Nat} (h : m < 10) : digitsToNat (toString m) = m := by
  interval_cases m <;> rfl

theorem foldl_digits_shift : ∀ (l : List Char) (acc : Nat),
    l.foldl (fun a c => a * 10 + (c.toNat - '0'.toNat)) acc
      = acc * 10 ^ l.length + l.foldl (fun a c => a * 10 + (c.toNat - '0'.toNat)) 0
  | [], acc => by simp
  | c :: l, acc => by
    simp only [List.foldl_cons, List.length_cons]
    rw [foldl_digits_shift l (acc * 10 + (c.toNat - '0'.toNat)),
      foldl_digits_shift l (0 * 10 + (c.toNat - '0'.toNat))]
    ring

theorem digitsToNat_append (s t : String) :
    digitsToNat (s ++ t) = digitsToNat s * 10 ^ t.length + digitsToNat t := by
  unfold digitsToNat
  rw [String.data_append, List.foldl_append, foldl_digits_shift]
  rfl

theorem fracDigitsLoop_snd (d : Nat) (hd : 0 < d) :
    ∀ (k r : Nat), r < d → (fracDigitsLoop d r k).2 = r * 10 ^ k % d
  | 0, r, hr => by simp [fracDigitsLoop, Nat.mod_eq_of_lt hr]
  | k + 1, r, hr => by
    unfold fracDigitsLoop
    dsimp only
    rw [fracDigitsLoop_snd d hd k (r * 10 % d) (Nat.mod_lt _ hd)]
    rw [pow_succ, Nat.mod_mul_mod]
    congr 1
    ring

theorem digit_lt_ten {d r : Nat} (hd : 0 < d) (hr : r < d) : r * 10 / d < 10 :=
  (Nat.div_lt_iff_lt_mul hd).mpr (by omega)

theorem fracDigitsLoop_fst_length (d : Nat) (hd : 0 < d) :
    ∀ (k r : Nat), r < d → ((fracDigitsLoop d r k).1).length = k
  | 0, _, _ => rfl
  | k + 1, r, hr => by
    unfold fracDigitsLoop
    dsimp only
    rw [String.length_append,
      fracDigitsLoop_fst_length d hd k (r * 10 % d) (Nat.mod_lt _ hd),
      toString_digit_length (digit_lt_ten hd hr)]
    omega

theorem fracDigitsLoop_fst_val (d : Nat) (hd : 0 < d) :
    ∀ (k r : Nat), r < d → digitsToNat (fracDigitsLoop d r k).1 = r * 10 ^ k / d
  | 0, r, hr => by simp [fracDigitsLoop, digitsToNat, Nat.div_eq_of_lt hr]
  | k + 1, r, hr => by
    unfold fracDigitsLoop
    dsimp only
    rw [digitsToNat_append,
      fracDigitsLoop_fst_val d hd k (r * 10 % d) (Nat.mod_lt _ hd),
      digitsToNat_single (digit_lt_ten hd hr),
      fracDigitsLoop_fst_length d hd k (r * 10 % d) (Nat.mod_lt _ hd)]
    have hdm := Nat.div_add_mod (r * 10) d
    have hsplit : r * 10 ^ (k + 1) = d * (r * 10 / d * 10 ^ k) + r * 10 % d * 10 ^ k := by
      calc r * 10 ^ (k + 1) = (r * 10) * 10 ^ k := by ring
      _ = (d * (r * 10 / d) + r * 10 % d) * 10 ^ k := by rw [hdm]
      _ = d * (r * 10 / d * 10 ^ k) + r * 10 % d * 10 ^ k := by ring
    rw [hsplit, Nat.mul_add_div hd]

/-- C8: the exact-value formatter renders `num/den` (reais) as the
thousands-grouped integer part, a comma, exactly 6 truncated long-division
digits (their value is `floor(frac · 10^6)`, no rounding), and the marker
`…` exactly when the remainder after those digits is non-zero; and the
formatter has no effect on the integer settlement amounts (the
`participantTotals` of a run do not depend on the formatter at all). -/
theorem c8_formatter_spec (num den : Int) (hden : den ≠ 0) :
    (formatBRLFromFraction num den 6
      = "R$ " ++ thousandsSep (toString (num.natAbs / den.natAbs)) ++ ","
        ++ (fracDigitsLoop den.natAbs (num.natAbs % den.natAbs) 6).1
        ++ (if num.natAbs % den.natAbs * 10 ^ 6 % den.natAbs ≠ 0 then "…" else "")) ∧
    ((fracDigitsLoop den.natAbs (num.natAbs % den.natAbs) 6).1).length = 6 ∧
    digitsToNat (fracDigitsLoop den.natAbs (num.natAbs % den.natAbs) 6).1
      = num.natAbs % den.natAbs * 10 ^ 6 / den.natAbs ∧
    (fracDigitsLoop den.natAbs (num.natAbs % den.natAbs) 6).2
      = num.natAbs % den.natAbs * 10 ^ 6 % den.natAbs ∧
    (∀ (fmt : Int → Int → Nat → String) (ps : List Participant) (its : List Item)
        (shs : List ItemShareInput) (exs : List Extra) (b a : Nat),
      (calculateSplitF fmt ps its shs exs b a).map (fun r => r.participantTotals)
        = (calculateSplit ps its shs exs b a).map (fun r => r.participantTotals)) := by
  have hd : 0 < den.natAbs := Int.natAbs_pos.mpr hden
  have hr : num.natAbs % den.natAbs < den.natAbs := Nat.mod_lt _ hd
  refine ⟨?_,
    fracDigitsLoop_fst_length den.natAbs hd 6 (num.natAbs % den.natAbs) hr,
    fracDigitsLoop_fst_val den.natAbs hd 6 (num.natAbs % den.natAbs) hr,
    fracDigitsLoop_snd den.natAbs hd 6 (num.natAbs % den.natAbs) hr, ?_⟩
  · unfold formatBRLFromFraction
    dsimp only
    rw [fracDigitsLoop_snd den.natAbs hd 6 (num.natAbs % den.natAbs) hr]
  · intro fmt ps its shs exs b a
    unfold calculateSplit calculateSplitF
    rcases hI : List.foldlM (processItem ps shs) initState its with m | stI
    · rfl
    · dsimp only
      rcases hE : List.foldlM (processExtra ps) stI exs with m | stE
      · rfl
      · dsimp only
        by_cases hc :
            (((ps.map (fun p => p.id)).eraseDups.map
                (rawPropPass ps exs stE).participantTotals).sum
              = (rawPropPass ps exs stE).itemsTotalCents
                + (rawPropPass ps exs stE).extrasTotalCents)
        · rw [if_neg (not_not_intro hc), if_neg (not_not_intro hc)]
          rfl
        · rw [if_pos hc, if_pos hc]

/-- C8 witness: the formatter specification applied at `31/3` reais, whose
rendering is `R$ 10,333333…` (six truncated digits, repeating marker). -/
theorem c8_formatter_spec_witness :
    (formatBRLFromFraction 31 3 6
      = "R$ " ++ thousandsSep (toString ((31 : Int).natAbs / (3 : Int).natAbs)) ++ ","
        ++ (fracDigitsLoop (3 : Int).natAbs ((31 : Int).natAbs % (3 : Int).natAbs) 6).1
        ++ (if (31 : Int).natAbs % (3 : Int).natAbs * 10 ^ 6 % (3 : Int).natAbs ≠ 0
            then "…" else "")) ∧
    formatBRLFromFraction 31 3 6 = "R$ 10,333333…" :=
  ⟨(c8_formatter_spec 31 3 (by decide)).1, by rfl⟩
